import Mathlib

/-!
Verification of the docx2latex streaming converter.

The definitions below are a shallow embedding of the Rust sources:
`src/tag.rs` (semantic tags and classification), `src/peekaboo.rs` (the
peekable context stack `Boo`), `src/ooxml.rs` (the structural pattern
matchers), `src/latex.rs` (the LaTeX emission helpers) and `src/lib.rs`
(escaping, the per-event emitter and the conversion driver).  Writes to
the output `BufWriter` are modelled as returned `String` fragments, the
relationship `HashMap` as a lookup function, and a Rust panic (the
`expect` in `latex::drawing`) as `Option.none` propagated through the
driver.
-/

namespace Docx2latex

/-- Qualified XML name (the used parts of `xml::name::OwnedName`):
an optional namespace alias `pfx` and a local name. -/
structure QName where
  pfx : Option String
  localName : String
deriving DecidableEq

/-- An XML attribute (the used parts of `xml::attribute::OwnedAttribute`). -/
structure Attr where
  name : QName
  value : String
deriving DecidableEq

/-- `tag.rs::normalize`: render a qualified name as `prefix:localName`
(empty when the alias is absent, leading colon when it is empty). -/
def normalize (raw : QName) : String :=
  (match raw.pfx with
   | some p => p ++ ":"
   | none => "") ++ raw.localName

/-- `tag.rs::Link`. -/
inductive Link where
  | Anchor (s : String)
  | Relationship (s : String)
deriving DecidableEq

/-- `tag.rs::Tag`. -/
inductive Tag where
  | AGraphic
  | AGraphicData
  | PicPic
  | PicBlipFill
  | MoMathPara
  | MoMath
  | MDelim
  | MRad
  | MDeg
  | MRun
  | MText
  | MSub
  | MSup
  | MNary
  | MNaryPr
  | MFraction
  | MFunc
  | MFName
  | MNum
  | MDen
  | WPInline
  | WPAnchor
  | WBookmarkEnd
  | WDrawing
  | WParagraph
  | WRun
  | WText
  | ABlip (rel : String)
  | MChr (value : String)
  | WBookmarkStart (anchor : String)
  | WHyperlink (link : Link)
  | Content (s : String)
  | Unknown (id : String)
deriving DecidableEq

/-- `tag.rs::Tag::a_blip`. -/
def Tag.a_blip : Tag → Option String
  | .ABlip rel => some rel
  | _ => none

/-- `tag.rs::Tag::w_hyperlink`. -/
def Tag.w_hyperlink : Tag → Option Link
  | .WHyperlink value => some value
  | _ => none

/-- `tag.rs::Tag::content`. -/
def Tag.content : Tag → Option String
  | .Content value => some value
  | _ => none

/-- `tag.rs::InputError`. -/
inductive InputError where
  | MissingAttributes (id : String) (missing : List String)
deriving DecidableEq

/-- `tag.rs::impl TryFrom<(&OwnedName, &Vec<OwnedAttribute>)> for Tag`. -/
def Tag.tryFrom (name : QName) (atts : List Attr) : Except InputError Tag :=
  let id := normalize name
  match id with
  | "a:graphic" => .ok .AGraphic
  | "a:graphicData" => .ok .AGraphicData
  | "a:blip" =>
    match atts.find? (fun a => normalize a.name == "r:embed") with
    | some relId => .ok (.ABlip relId.value)
    | none => .error (.MissingAttributes id [("r:embed")])
  | "pic:pic" => .ok .PicPic
  | "pic:blipFill" => .ok .PicBlipFill
  | "m:oMathPara" => .ok .MoMathPara
  | "m:oMath" => .ok .MoMath
  | "m:d" => .ok .MDelim
  | "m:rad" => .ok .MRad
  | "m:deg" => .ok .MDeg
  | "m:r" => .ok .MRun
  | "m:t" => .ok .MText
  | "m:sub" => .ok .MSub
  | "m:sup" => .ok .MSup
  | "m:nary" => .ok .MNary
  | "m:naryPr" => .ok .MNaryPr
  | "m:chr" =>
    match atts.find? (fun a => normalize a.name == "m:val") with
    | some symbol => .ok (.MChr symbol.value)
    | none => .error (.MissingAttributes id [("m:val")])
  | "m:f" => .ok .MFraction
  | "m:func" => .ok .MFunc
  | "m:fName" => .ok .MFName
  | "m:num" => .ok .MNum
  | "m:den" => .ok .MDen
  | "wp:inline" => .ok .WPInline
  | "wp:anchor" => .ok .WPAnchor
  | "w:p" => .ok .WParagraph
  | "w:r" => .ok .WRun
  | "w:t" => .ok .WText
  | "w:hyperlink" =>
    match atts.find? (fun a => normalize a.name == "r:id") with
    | some relId => .ok (.WHyperlink (.Relationship relId.value))
    | none =>
      match atts.find? (fun a => normalize a.name == "w:anchor") with
      | some anchor => .ok (.WHyperlink (.Anchor anchor.value))
      | none => .error (.MissingAttributes id [("r:id"), ("w:anchor")])
  | "w:bookmarkStart" =>
    .ok (.WBookmarkStart
      (((atts.find? (fun a => normalize a.name == "w:anchor")).map
        (fun a => a.value)).getD ("")))
  | "w:bookmarkEnd" => .ok .WBookmarkEnd
  | "w:drawing" => .ok .WDrawing
  | _ => .ok (.Unknown id)

/-- `peekaboo.rs::Boo`: a stack (a `Vec` growing at the tail) with a
peek cursor held in a `Cell`.  Interior mutability is modelled by
returning the updated structure. -/
structure Boo (α : Type) where
  vec : List α
  peeked : Nat
deriving DecidableEq

/-- `peekaboo.rs::Boo::peek`: read the element `peeked` positions below
the tail and advance the cursor. -/
def Boo.peek {α : Type} (b : Boo α) : Option α × Boo α :=
  let bumped : Boo α := ⟨b.vec, b.peeked + 1⟩
  if b.peeked ≥ b.vec.length then (none, bumped)
  else (b.vec[b.vec.length - b.peeked - 1]?, bumped)

/-- `peekaboo.rs::Boo::reset`: zero the cursor, keep the contents. -/
def Boo.reset {α : Type} (b : Boo α) : Boo α := ⟨b.vec, 0⟩

/-- `Vec::push` reached through `Boo`'s `DerefMut`. -/
def Boo.push {α : Type} (b : Boo α) (x : α) : Boo α := ⟨b.vec ++ [x], b.peeked⟩

/-- `Vec::pop` reached through `Boo`'s `DerefMut`: returns the removed
tail element (or nothing on an empty stack) and the shrunken stack. -/
def Boo.pop {α : Type} (b : Boo α) : Option α × Boo α :=
  (b.vec.getLast?, ⟨b.vec.dropLast, b.peeked⟩)

/-- `Vec::last` reached through `Boo`'s `Deref` (cursor-independent). -/
def Boo.last {α : Type} (b : Boo α) : Option α := b.vec.getLast?

/-- Iterate `Boo.peek` a given number of times, collecting the results. -/
def Boo.peekN {α : Type} (b : Boo α) : Nat → List (Option α) × Boo α
  | 0 => ([], b)
  | k + 1 =>
    let r := b.peek
    let rest := r.2.peekN k
    (r.1 :: rest.1, rest.2)

/-- `lib.rs::blink`: turn a boolean test into an `Option` so that a
failed `matches!` aborts a `?`-chain. -/
def blink (value : Bool) : Option Unit :=
  if value then some () else none

namespace ooxml

/-- `ooxml.rs::hyperlink`: content on top of `w:t`, `w:r`,
`w:hyperlink`.  The cursor advance of each `peek` is threaded through
the `p*` pairs; the `?`-chain of the source is an `Option.bind` chain. -/
def hyperlink (boo : Boo Tag) : Option (Link × String) :=
  let b0 := boo.reset
  let p0 := b0.peek
  let p1 := p0.2.peek
  let p2 := p1.2.peek
  let p3 := p2.2.peek
  (p0.1.bind Tag.content).bind (fun content =>
  (p1.1.bind (fun t => blink (t == Tag.WText))).bind (fun _ =>
  (p2.1.bind (fun t => blink (t == Tag.WRun))).bind (fun _ =>
  (p3.1.bind Tag.w_hyperlink).map (fun link => (link, content)))))

/-- `ooxml.rs::drawing`: `a:blip` on top of the seven-frame drawing
chain `w:drawing`, `wp:inline`/`wp:anchor`, `a:graphic`,
`a:graphicData`, `pic:pic`, `pic:blipFill`. -/
def drawing (boo : Boo Tag) : Option String :=
  let b0 := boo.reset
  let p0 := b0.peek
  let p1 := p0.2.peek
  let p2 := p1.2.peek
  let p3 := p2.2.peek
  let p4 := p3.2.peek
  let p5 := p4.2.peek
  let p6 := p5.2.peek
  (p0.1.bind Tag.a_blip).bind (fun rel =>
  (p1.1.bind (fun t => blink (t == Tag.PicBlipFill))).bind (fun _ =>
  (p2.1.bind (fun t => blink (t == Tag.PicPic))).bind (fun _ =>
  (p3.1.bind (fun t => blink (t == Tag.AGraphicData))).bind (fun _ =>
  (p4.1.bind (fun t => blink (t == Tag.AGraphic))).bind (fun _ =>
  (p5.1.bind (fun t => blink (t == Tag.WPInline || t == Tag.WPAnchor))).bind (fun _ =>
  (p6.1.bind (fun t => blink (t == Tag.WDrawing))).map (fun _ => rel)))))))

/-- `ooxml.rs::word_text`: content on top of `w:t`, `w:r`. -/
def word_text (boo : Boo Tag) : Option String :=
  let b0 := boo.reset
  let p0 := b0.peek
  let p1 := p0.2.peek
  let p2 := p1.2.peek
  (p0.1.bind Tag.content).bind (fun content =>
  (p1.1.bind (fun t => blink (t == Tag.WText))).bind (fun _ =>
  (p2.1.bind (fun t => blink (t == Tag.WRun))).map (fun _ => content)))

/-- `ooxml.rs::math_text`: content on top of `m:t`, `m:r`. -/
def math_text (boo : Boo Tag) : Option String :=
  let b0 := boo.reset
  let p0 := b0.peek
  let p1 := p0.2.peek
  let p2 := p1.2.peek
  (p0.1.bind Tag.content).bind (fun content =>
  (p1.1.bind (fun t => blink (t == Tag.MText))).bind (fun _ =>
  (p2.1.bind (fun t => blink (t == Tag.MRun))).map (fun _ => content)))

end ooxml

/-- `lib.rs::State`. -/
inductive State where
  | OpenedTag (t : Tag)
  | ClosedTag
  | FoundContent (s : String)
  | AttributesMissing
  | RelationshipMissing
  | Happy
  | End
deriving DecidableEq

/-- The relationship map of one conversion, reduced to its only use in
the core: key lookup (`HashMap::get`). -/
def Rels : Type := String → Option String

/-- Split a character list at every `/`, keeping empty groups. -/
def splitOnSlash : List Char → List (List Char)
  | [] => [[]]
  | c :: rest =>
    match splitOnSlash rest with
    | [] => [[]]
    | g :: gs => if c = '/' then [] :: g :: gs else (c :: g) :: gs

/-- Model of `std::path` `file_name` on the target string: the final
non-empty, non-`.` path component, none when it is `..` or absent. -/
def rustFileName (path : String) : Option String :=
  let comps := ((splitOnSlash path.data).map String.mk).filter
    (fun s => !(s == "") && !(s == "."))
  match comps.getLast? with
  | some c => if c = ".." then none else some c
  | none => none

/-- Index of the last occurrence of `.` in a list of characters. -/
def lastDotIdx : List Char → Option Nat
  | [] => none
  | c :: rest =>
    match lastDotIdx rest with
    | some i => some (i + 1)
    | none => if c = '.' then some 0 else none

/-- Model of `std::path` stem extraction from a file name: everything
before the last `.`, the whole name when there is no `.` or when the
only `.` is leading. -/
def stemOfFileName (name : String) : String :=
  match lastDotIdx name.data with
  | none => name
  | some 0 => name
  | some i => String.mk (name.data.take i)

/-- Model of `PathBuf::from(path).file_stem()` as used by `latex::drawing`. -/
def rustFileStem (path : String) : Option String :=
  (rustFileName path).map stemOfFileName

/-- Model of Rust `Debug` escaping for one printable character, as the
`{:?}` format specifier applies it to the file stem in `latex::drawing`. -/
def rustDebugChar (c : Char) : String :=
  if c = '"' then "\\\""
  else if c = '\\' then "\\\\"
  else if c = '\n' then "\\n"
  else if c = '\t' then "\\t"
  else if c = '\r' then "\\r"
  else String.singleton c

/-- Model of Rust `{:?}` formatting of a string-like value: the escaped
text wrapped in double quotes. -/
def rustDebug (s : String) : String :=
  "\"" ++ String.join (s.data.map rustDebugChar) ++ "\""

namespace latex

/-- `latex.rs::hyperlink`: anchor links become `\hyperlink`, resolvable
relationship links become `\href`, unresolvable ones degrade to the bare
content.  The returned pair is (driver state, written fragment). -/
def hyperlink (rels : Rels) (hl : Link × String) : State × String :=
  match hl.1 with
  | .Anchor anchor =>
    (.Happy, "\\hyperlink\x7b" ++ anchor ++ "\x7d\x7b" ++ hl.2 ++ "\x7d")
  | .Relationship relId =>
    match rels relId with
    | some url =>
      (.Happy, "\\href\x7b" ++ url ++ "\x7d\x7b" ++ hl.2 ++ "\x7d")
    | none => (.RelationshipMissing, hl.2)

/-- `latex.rs::drawing`: a resolvable relationship emits
`\includegraphics` with the `{:?}`-formatted file stem; an unresolvable
one emits nothing.  `none` models the `expect` panic on a target with no
file name. -/
def drawing (rels : Rels) (rel : String) : Option (State × String) :=
  match rels rel with
  | some path =>
    (rustFileStem path).map (fun stem =>
      (State.Happy,
        "\\includegraphics[width=\\textwidth]\x7b" ++ rustDebug stem ++ "\x7d"))
  | none => some (.RelationshipMissing, "")

end latex

/-- The per-character escaping branch of `lib.rs::escape`. -/
def escapeChar (c : Char) (mathMode : Bool) : String :=
  if c = '∞' then "\\infty "
  else if c = 'π' then "\\pi "
  else if c = '&' then "\\& "
  else if c = '<' then (if mathMode then "<" else "\\textless ")
  else if c = '>' then (if mathMode then ">" else "\\textgreater ")
  else if c = '%' then "\\% "
  else if c = '$' then "\\$ "
  else if c = '\x7b' then "\\\x7b "
  else if c = '#' then "\\# "
  else if c = '\x7d' then "\\\x7d "
  else if c = '~' then "\\~\x7b\x7d "
  else if c = '_' then "\\_ "
  else if c = '±' then "\\pm "
  else if c = '∓' then "\\mp "
  else String.singleton c

/-- `lib.rs::escape`: fold the per-character rules over the raw text. -/
def escape (raw : String) (mathMode : Bool) : String :=
  raw.data.foldl (fun buf c => buf ++ escapeChar c mathMode) ("")

/-- The fixed `m:chr` symbol table inside `lib.rs::start_element`. -/
def mchrSymbol (value : String) : String :=
  match value with
  | "⋀" => "bigwedge"
  | "⋁" => "bigvee"
  | "⋂" => "bigcap"
  | "⋃" => "bigcup"
  | "∐" => "coprod"
  | "∏" => "prod"
  | "∑" => "sum"
  | "∮" => "oint"
  | _ => ""

/-- Result of one emitter call: the driver state, the text written to
the output, and the updated math-mode and n-ary flags. -/
structure StepOut where
  state : State
  out : String
  mathMode : Bool
  naryHasChr : Option Bool
deriving DecidableEq

/-- The tag-open emission and flag updates of `lib.rs::start_element`
(the `match &tag` block), returning (written text, math-mode, n-ary flag). -/
def startEmit (tag : Tag) (mathMode : Bool) (naryHasChr : Option Bool) :
    String × Bool × Option Bool :=
  match tag with
  | .MoMathPara =>
    if mathMode then ("", mathMode, naryHasChr) else ("$$", true, naryHasChr)
  | .MDelim => ("(", mathMode, naryHasChr)
  | .MRad => ("\\sqrt", mathMode, naryHasChr)
  | .MDeg => ("[", mathMode, naryHasChr)
  | .MSub => ("_\x7b", mathMode, naryHasChr)
  | .MSup => ("^\x7b", mathMode, naryHasChr)
  | .MNaryPr =>
    match naryHasChr with
    | none => ("", mathMode, some false)
    | some b => ("", mathMode, some b)
  | .MChr value =>
    let nary' := match naryHasChr with
      | some false => some true
      | x => x
    ("\\" ++ mchrSymbol value, mathMode, nary')
  | .MFraction => ("\\frac", mathMode, naryHasChr)
  | .MNum => ("\x7b", mathMode, naryHasChr)
  | .MDen => ("\x7b", mathMode, naryHasChr)
  | _ => ("", mathMode, naryHasChr)

/-- `lib.rs::start_element`: classify; a `MissingAttributes` failure is
logged and reported without touching any state; on success emit the
tag-open literal, update the flags and hand the tag to the driver. -/
def startElement (name : QName) (atts : List Attr) (mathMode : Bool)
    (naryHasChr : Option Bool) : StepOut :=
  match Tag.tryFrom name atts with
  | .error _ => ⟨.AttributesMissing, "", mathMode, naryHasChr⟩
  | .ok tag =>
    let r := startEmit tag mathMode naryHasChr
    ⟨.OpenedTag tag, r.1, r.2.1, r.2.2⟩

/-- The single-tag close table of `lib.rs::end_element` (the
`match tag` block on `stack.last()`). -/
def singleTagClose (tag : Tag) (mathMode : Bool) (naryHasChr : Option Bool) :
    String × Bool × Option Bool :=
  match tag with
  | .WParagraph => ("\n\n", mathMode, naryHasChr)
  | .WBookmarkStart anchor =>
    ("\\hypertarget\x7b" ++ anchor ++ "\x7d\x7b", mathMode, naryHasChr)
  | .MDelim => (")", mathMode, naryHasChr)
  | .MoMathPara => ("$$\n", false, naryHasChr)
  | .MDeg => ("]\x7b", mathMode, naryHasChr)
  | .MSub | .MSup | .MNum | .MDen | .MRad | .WBookmarkEnd =>
    ("\x7d", mathMode, naryHasChr)
  | .MNaryPr =>
    ((if naryHasChr = some false then "\\int" else ""), mathMode, none)
  | _ => ("", mathMode, naryHasChr)

/-- The emission part of `lib.rs::end_element`: the four structural
matchers tried in order, then the single-tag fallback on the tail
element.  `none` propagates the panic inside `latex::drawing`. -/
def endElementCore (rels : Rels) (stack : Boo Tag) (mathMode : Bool)
    (naryHasChr : Option Bool) : Option (String × Bool × Option Bool) :=
  match ooxml.drawing stack with
  | some rel => (latex.drawing rels rel).map (fun r => (r.2, mathMode, naryHasChr))
  | none =>
    match ooxml.hyperlink stack with
    | some hl => some ((latex.hyperlink rels hl).2, mathMode, naryHasChr)
    | none =>
      match ooxml.word_text stack with
      | some content => some (content, mathMode, naryHasChr)
      | none =>
        match ooxml.math_text stack with
        | some content => some (content, mathMode, naryHasChr)
        | none =>
          match stack.last with
          | some tag => some (singleTagClose tag mathMode naryHasChr)
          | none => some ("", mathMode, naryHasChr)

/-- `lib.rs::end_element`: emit, then report `ClosedTag` to the driver. -/
def endElement (rels : Rels) (stack : Boo Tag) (mathMode : Bool)
    (naryHasChr : Option Bool) : Option StepOut :=
  (endElementCore rels stack mathMode naryHasChr).map
    (fun r => ⟨.ClosedTag, r.1, r.2.1, r.2.2⟩)

/-- The events of `xml::reader::XmlEvent` reaching `lib.rs::xml_event`,
plus `readError` for the `Err` branch of `parser.next()`. -/
inductive Event where
  | startElement (name : QName) (atts : List Attr)
  | endElement
  | characters (s : String)
  | whitespace (s : String)
  | startDocument
  | endDocument
  | other
  | readError
deriving DecidableEq

/-- `lib.rs::xml_event`: route one event to the emitter. -/
def xmlEvent (rels : Rels) (stack : Boo Tag) (event : Event) (mathMode : Bool)
    (naryHasChr : Option Bool) : Option StepOut :=
  match event with
  | .startElement name atts => some (startElement name atts mathMode naryHasChr)
  | .endElement => endElement rels stack mathMode naryHasChr
  | .characters content =>
    some ⟨.FoundContent (escape content mathMode), "", mathMode, naryHasChr⟩
  | .startDocument => some ⟨.Happy, "", mathMode, naryHasChr⟩
  | .endDocument => some ⟨.End, "", mathMode, naryHasChr⟩
  | .whitespace content => some ⟨.FoundContent content, "", mathMode, naryHasChr⟩
  | .other => some ⟨.Happy, "", mathMode, naryHasChr⟩
  | .readError => some ⟨.Happy, "", mathMode, naryHasChr⟩

/-- The mutable state of one `lib.rs::document` conversion, with the
output accumulated so far. -/
structure DocState where
  stack : Boo Tag
  mathMode : Bool
  naryHasChr : Option Bool
  out : String
deriving DecidableEq

/-- Outcome of one turn of the `lib.rs::document` loop. -/
inductive StepRes where
  | cont (st : DocState)
  | stop (st : DocState)
  | panic
deriving DecidableEq

/-- One turn of the `lib.rs::document` loop: a read error stops the
loop; otherwise the event is routed and the returned state drives the
stack (`OpenedTag` pushes, `ClosedTag` pops, `FoundContent` pushes a
content tag, re-runs `end_element` and pops it, `End` stops). -/
def docStep (rels : Rels) (st : DocState) (e : Event) : StepRes :=
  match e with
  | .readError => .stop st
  | _ =>
    match xmlEvent rels st.stack e st.mathMode st.naryHasChr with
    | none => .panic
    | some r =>
      match r.state with
      | .OpenedTag t =>
        .cont ⟨st.stack.push t, r.mathMode, r.naryHasChr, st.out ++ r.out⟩
      | .ClosedTag =>
        .cont ⟨(st.stack.pop).2, r.mathMode, r.naryHasChr, st.out ++ r.out⟩
      | .FoundContent c =>
        let s2 := st.stack.push (.Content c)
        match endElement rels s2 r.mathMode r.naryHasChr with
        | none => .panic
        | some r2 =>
          .cont ⟨(s2.pop).2, r2.mathMode, r2.naryHasChr,
            (st.out ++ r.out) ++ r2.out⟩
      | .End => .stop ⟨st.stack, r.mathMode, r.naryHasChr, st.out ++ r.out⟩
      | _ => .cont ⟨st.stack, r.mathMode, r.naryHasChr, st.out ++ r.out⟩

/-- `lib.rs::document` over a finite event stream: run the loop until
the stream is exhausted, the end-of-document event or a read error
stops it, or an emission panics. -/
def documentRun (rels : Rels) : List Event → DocState → Option DocState
  | [], st => some st
  | e :: rest, st =>
    match docStep rels st e with
    | .cont st' => documentRun rels rest st'
    | .stop st' => some st'
    | .panic => none

/-- The initial state of `lib.rs::document`. -/
def initState : DocState := ⟨⟨[], 0⟩, false, none, ""⟩

/-- Reference ancestor path, following the spec's words: after each
event the stack should equal the ancestor path of the XML node
currently open — a successfully classified start tag extends the path,
a failing one is skipped, a closing event removes the innermost
element, and no other event touches it. -/
def specAncestorPathFrom (path : List Tag) : List Event → List Tag
  | [] => path
  | .startElement n a :: rest =>
    match Tag.tryFrom n a with
    | .ok t => specAncestorPathFrom (path ++ [t]) rest
    | .error _ => specAncestorPathFrom path rest
  | .endElement :: rest => specAncestorPathFrom path.dropLast rest
  | _ :: rest => specAncestorPathFrom path rest

/-! ## Basic lemmas about the peekable stack -/

/-- One `peek` reads the stack `peeked` positions below the tail — that
is, position `peeked` of the reversed contents — and bumps the cursor. -/
lemma Boo.peek_eq {α : Type} (b : Boo α) :
    b.peek = (b.vec.reverse[b.peeked]?, ⟨b.vec, b.peeked + 1⟩) := by
  unfold Boo.peek
  by_cases h : b.peeked ≥ b.vec.length
  · rw [if_pos h]
    have hn : b.vec.reverse[b.peeked]? = none := by
      apply List.getElem?_eq_none
      simpa using h
    rw [hn]
  · rw [if_neg h]
    have hlt : b.peeked < b.vec.length := Nat.lt_of_not_le h
    have := List.getElem?_reverse (l := b.vec) (i := b.peeked) hlt
    rw [this]
    congr 2
    omega

lemma bind_const_none {α β : Type} (x : Option α) :
    (x.bind (fun _ => (none : Option β))) = none := by cases x <;> rfl

lemma blink_eq_some {b : Bool} {u : Unit} : blink b = some u ↔ b = true := by
  cases b <;> simp [blink]

lemma Tag.content_eq_some {t : Tag} {s : String} :
    t.content = some s ↔ t = .Content s := by
  cases t <;> simp [Tag.content]

lemma Tag.a_blip_eq_some {t : Tag} {s : String} :
    t.a_blip = some s ↔ t = .ABlip s := by
  cases t <;> simp [Tag.a_blip]

lemma Tag.w_hyperlink_eq_some {t : Tag} {l : Link} :
    t.w_hyperlink = some l ↔ t = .WHyperlink l := by
  cases t <;> simp [Tag.w_hyperlink]

/-! ## Reversed-list forms of the pattern matchers

Each matcher inspects the stack from the tail; `<matcher>R` is the same
computation on the reversed contents, convenient for proofs. -/

def hyperlinkR : List Tag → Option (Link × String)
  | t0 :: t1 :: t2 :: t3 :: _ =>
    (t0.content).bind (fun content =>
    (blink (t1 == Tag.WText)).bind (fun _ =>
    (blink (t2 == Tag.WRun)).bind (fun _ =>
    (t3.w_hyperlink).map (fun link => (link, content)))))
  | _ => none

def drawingR : List Tag → Option String
  | t0 :: t1 :: t2 :: t3 :: t4 :: t5 :: t6 :: _ =>
    (t0.a_blip).bind (fun rel =>
    (blink (t1 == Tag.PicBlipFill)).bind (fun _ =>
    (blink (t2 == Tag.PicPic)).bind (fun _ =>
    (blink (t3 == Tag.AGraphicData)).bind (fun _ =>
    (blink (t4 == Tag.AGraphic)).bind (fun _ =>
    (blink (t5 == Tag.WPInline || t5 == Tag.WPAnchor)).bind (fun _ =>
    (blink (t6 == Tag.WDrawing)).map (fun _ => rel)))))))
  | _ => none

def wordTextR : List Tag → Option String
  | t0 :: t1 :: t2 :: _ =>
    (t0.content).bind (fun content =>
    (blink (t1 == Tag.WText)).bind (fun _ =>
    (blink (t2 == Tag.WRun)).map (fun _ => content)))
  | _ => none

def mathTextR : List Tag → Option String
  | t0 :: t1 :: t2 :: _ =>
    (t0.content).bind (fun content =>
    (blink (t1 == Tag.MText)).bind (fun _ =>
    (blink (t2 == Tag.MRun)).map (fun _ => content)))
  | _ => none

lemma hyperlink_rev (r : List Tag) (p : Nat) :
    ooxml.hyperlink ⟨r.reverse, p⟩ = hyperlinkR r := by
  unfold ooxml.hyperlink
  simp only [Boo.reset, Boo.peek_eq, List.reverse_reverse, Nat.zero_add]
  rcases r with _ | ⟨t0, _ | ⟨t1, _ | ⟨t2, _ | ⟨t3, rest⟩⟩⟩⟩ <;>
    simp [hyperlinkR, bind_const_none]

lemma drawing_rev (r : List Tag) (p : Nat) :
    ooxml.drawing ⟨r.reverse, p⟩ = drawingR r := by
  unfold ooxml.drawing
  simp only [Boo.reset, Boo.peek_eq, List.reverse_reverse, Nat.zero_add]
  rcases r with _ | ⟨t0, _ | ⟨t1, _ | ⟨t2, _ | ⟨t3, _ | ⟨t4, _ | ⟨t5, _ | ⟨t6, rest⟩⟩⟩⟩⟩⟩⟩ <;>
    simp [drawingR, bind_const_none]

lemma word_text_rev (r : List Tag) (p : Nat) :
    ooxml.word_text ⟨r.reverse, p⟩ = wordTextR r := by
  unfold ooxml.word_text
  simp only [Boo.reset, Boo.peek_eq, List.reverse_reverse, Nat.zero_add]
  rcases r with _ | ⟨t0, _ | ⟨t1, _ | ⟨t2, rest⟩⟩⟩ <;>
    simp [wordTextR, bind_const_none]

lemma math_text_rev (r : List Tag) (p : Nat) :
    ooxml.math_text ⟨r.reverse, p⟩ = mathTextR r := by
  unfold ooxml.math_text
  simp only [Boo.reset, Boo.peek_eq, List.reverse_reverse, Nat.zero_add]
  rcases r with _ | ⟨t0, _ | ⟨t1, _ | ⟨t2, rest⟩⟩⟩ <;>
    simp [mathTextR, bind_const_none]

lemma hyperlink_eqR (v : List Tag) (p : Nat) :
    ooxml.hyperlink ⟨v, p⟩ = hyperlinkR v.reverse := by
  have := hyperlink_rev v.reverse p
  simpa using this

lemma drawing_eqR (v : List Tag) (p : Nat) :
    ooxml.drawing ⟨v, p⟩ = drawingR v.reverse := by
  have := drawing_rev v.reverse p
  simpa using this

lemma word_text_eqR (v : List Tag) (p : Nat) :
    ooxml.word_text ⟨v, p⟩ = wordTextR v.reverse := by
  have := word_text_rev v.reverse p
  simpa using this

lemma math_text_eqR (v : List Tag) (p : Nat) :
    ooxml.math_text ⟨v, p⟩ = mathTextR v.reverse := by
  have := math_text_rev v.reverse p
  simpa using this

/-! ## Characterization of the matchers -/

lemma hyperlinkR_chain (c : String) (l : Link) (tail : List Tag) :
    hyperlinkR (.Content c :: .WText :: .WRun :: .WHyperlink l :: tail) = some (l, c) := rfl

lemma wordTextR_chain (c : String) (tail : List Tag) :
    wordTextR (.Content c :: .WText :: .WRun :: tail) = some c := rfl

lemma mathTextR_chain (c : String) (tail : List Tag) :
    mathTextR (.Content c :: .MText :: .MRun :: tail) = some c := rfl

lemma drawingR_chain_inline (rel : String) (tail : List Tag) :
    drawingR (.ABlip rel :: .PicBlipFill :: .PicPic :: .AGraphicData :: .AGraphic :: .WPInline :: .WDrawing :: tail) = some rel := rfl

lemma drawingR_chain_anchor (rel : String) (tail : List Tag) :
    drawingR (.ABlip rel :: .PicBlipFill :: .PicPic :: .AGraphicData :: .AGraphic :: .WPAnchor :: .WDrawing :: tail) = some rel := rfl

lemma hyperlinkR_cons_nc {t : Tag} (r : List Tag) (h : t.content = none) :
    hyperlinkR (t :: r) = none := by
  rcases r with _ | ⟨t1, _ | ⟨t2, _ | ⟨t3, rest⟩⟩⟩ <;> simp [hyperlinkR, h]

lemma wordTextR_cons_nc {t : Tag} (r : List Tag) (h : t.content = none) :
    wordTextR (t :: r) = none := by
  rcases r with _ | ⟨t1, _ | ⟨t2, rest⟩⟩ <;> simp [wordTextR, h]

lemma mathTextR_cons_nc {t : Tag} (r : List Tag) (h : t.content = none) :
    mathTextR (t :: r) = none := by
  rcases r with _ | ⟨t1, _ | ⟨t2, rest⟩⟩ <;> simp [mathTextR, h]

lemma drawingR_cons_nb {t : Tag} (r : List Tag) (h : t.a_blip = none) :
    drawingR (t :: r) = none := by
  rcases r with _ | ⟨t1, _ | ⟨t2, _ | ⟨t3, _ | ⟨t4, _ | ⟨t5, _ | ⟨t6, rest⟩⟩⟩⟩⟩⟩ <;>
    simp [drawingR, h]

lemma hyperlinkR_sound {r : List Tag} {l : Link} {c : String}
    (h : hyperlinkR r = some (l, c)) :
    ∃ tail, r = .Content c :: .WText :: .WRun :: .WHyperlink l :: tail := by
  rcases r with _ | ⟨t0, _ | ⟨t1, _ | ⟨t2, _ | ⟨t3, tail⟩⟩⟩⟩ <;>
    simp [hyperlinkR, Option.bind_eq_some, blink_eq_some, Tag.content_eq_some,
      Tag.w_hyperlink_eq_some, Option.map_eq_some', beq_iff_eq] at h
  aesop

lemma wordTextR_sound {r : List Tag} {c : String}
    (h : wordTextR r = some c) :
    ∃ tail, r = .Content c :: .WText :: .WRun :: tail := by
  rcases r with _ | ⟨t0, _ | ⟨t1, _ | ⟨t2, tail⟩⟩⟩ <;>
    simp [wordTextR, Option.bind_eq_some, blink_eq_some, Tag.content_eq_some,
      Option.map_eq_some', beq_iff_eq] at h
  aesop

lemma mathTextR_sound {r : List Tag} {c : String}
    (h : mathTextR r = some c) :
    ∃ tail, r = .Content c :: .MText :: .MRun :: tail := by
  rcases r with _ | ⟨t0, _ | ⟨t1, _ | ⟨t2, tail⟩⟩⟩ <;>
    simp [mathTextR, Option.bind_eq_some, blink_eq_some, Tag.content_eq_some,
      Option.map_eq_some', beq_iff_eq] at h
  aesop

lemma drawingR_sound {r : List Tag} {rel : String}
    (h : drawingR r = some rel) :
    ∃ w tail, (w = Tag.WPInline ∨ w = Tag.WPAnchor) ∧
      r = .ABlip rel :: .PicBlipFill :: .PicPic :: .AGraphicData :: .AGraphic :: w :: .WDrawing :: tail := by
  rcases r with _ | ⟨t0, _ | ⟨t1, _ | ⟨t2, _ | ⟨t3, _ | ⟨t4, _ | ⟨t5, _ | ⟨t6, tail⟩⟩⟩⟩⟩⟩⟩ <;>
    simp [drawingR, Option.bind_eq_some, blink_eq_some, Tag.a_blip_eq_some,
      Option.map_eq_some', beq_iff_eq, Bool.or_eq_true] at h
  aesop

/-! ## Boo-level matcher facts -/

lemma hyperlink_short (v : List Tag) (p : Nat) (h : v.length < 4) :
    ooxml.hyperlink ⟨v, p⟩ = none := by
  rw [hyperlink_eqR]
  have hlen : v.reverse.length < 4 := by simpa using h
  rcases hr : v.reverse with _ | ⟨a, _ | ⟨b, _ | ⟨c, _ | ⟨d, t⟩⟩⟩⟩ <;> rw [hr] at hlen <;>
    first
      | rfl
      | (exfalso; simp at hlen; omega)

lemma word_text_short (v : List Tag) (p : Nat) (h : v.length < 3) :
    ooxml.word_text ⟨v, p⟩ = none := by
  rw [word_text_eqR]
  have hlen : v.reverse.length < 3 := by simpa using h
  rcases hr : v.reverse with _ | ⟨a, _ | ⟨b, _ | ⟨c, t⟩⟩⟩ <;> rw [hr] at hlen <;>
    first
      | rfl
      | (exfalso; simp at hlen; omega)

lemma math_text_short (v : List Tag) (p : Nat) (h : v.length < 3) :
    ooxml.math_text ⟨v, p⟩ = none := by
  rw [math_text_eqR]
  have hlen : v.reverse.length < 3 := by simpa using h
  rcases hr : v.reverse with _ | ⟨a, _ | ⟨b, _ | ⟨c, t⟩⟩⟩ <;> rw [hr] at hlen <;>
    first
      | rfl
      | (exfalso; simp at hlen; omega)

lemma drawing_short (v : List Tag) (p : Nat) (h : v.length < 7) :
    ooxml.drawing ⟨v, p⟩ = none := by
  rw [drawing_eqR]
  have hlen : v.reverse.length < 7 := by simpa using h
  rcases hr : v.reverse with _ | ⟨a, _ | ⟨b, _ | ⟨c, _ | ⟨d, _ | ⟨e, _ | ⟨f, _ | ⟨g, t⟩⟩⟩⟩⟩⟩⟩ <;>
    rw [hr] at hlen <;>
    first
      | rfl
      | (exfalso; simp at hlen; omega)

lemma hyperlink_complete (rest : List Tag) (p : Nat) (l : Link) (c : String) :
    ooxml.hyperlink ⟨rest ++ [.WHyperlink l, .WRun, .WText, .Content c], p⟩ = some (l, c) := by
  rw [hyperlink_eqR]
  have hr : (rest ++ [Tag.WHyperlink l, Tag.WRun, Tag.WText, Tag.Content c]).reverse =
      Tag.Content c :: Tag.WText :: Tag.WRun :: Tag.WHyperlink l :: rest.reverse := by
    simp
  rw [hr, hyperlinkR_chain]

lemma word_text_complete (rest : List Tag) (p : Nat) (c : String) :
    ooxml.word_text ⟨rest ++ [.WRun, .WText, .Content c], p⟩ = some c := by
  rw [word_text_eqR]
  have hr : (rest ++ [Tag.WRun, Tag.WText, Tag.Content c]).reverse =
      Tag.Content c :: Tag.WText :: Tag.WRun :: rest.reverse := by simp
  rw [hr, wordTextR_chain]

lemma math_text_complete (rest : List Tag) (p : Nat) (c : String) :
    ooxml.math_text ⟨rest ++ [.MRun, .MText, .Content c], p⟩ = some c := by
  rw [math_text_eqR]
  have hr : (rest ++ [Tag.MRun, Tag.MText, Tag.Content c]).reverse =
      Tag.Content c :: Tag.MText :: Tag.MRun :: rest.reverse := by simp
  rw [hr, mathTextR_chain]

lemma drawing_complete (rest : List Tag) (p : Nat) (rel : String) (w : Tag)
    (hw : w = .WPInline ∨ w = .WPAnchor) :
    ooxml.drawing ⟨rest ++ [.WDrawing, w, .AGraphic, .AGraphicData, .PicPic, .PicBlipFill, .ABlip rel], p⟩ = some rel := by
  rw [drawing_eqR]
  have hr : (rest ++ [Tag.WDrawing, w, Tag.AGraphic, Tag.AGraphicData, Tag.PicPic, Tag.PicBlipFill, Tag.ABlip rel]).reverse =
      Tag.ABlip rel :: Tag.PicBlipFill :: Tag.PicPic :: Tag.AGraphicData :: Tag.AGraphic :: w :: Tag.WDrawing :: rest.reverse := by
    simp
  rw [hr]
  rcases hw with hw | hw <;> subst hw
  · exact drawingR_chain_inline rel rest.reverse
  · exact drawingR_chain_anchor rel rest.reverse

/-! ## end_element on specific stack shapes -/

lemma endElement_nil (rels : Rels) (p : Nat) (mm : Bool) (nary : Option Bool) :
    endElement rels ⟨[], p⟩ mm nary = some ⟨.ClosedTag, "", mm, nary⟩ := by
  unfold endElement endElementCore
  rw [drawing_eqR, hyperlink_eqR, word_text_eqR, math_text_eqR]
  rfl


lemma endElement_concat (rels : Rels) (v : List Tag) (t : Tag) (p : Nat)
    (mm : Bool) (nary : Option Bool)
    (hc : t.content = none) (hb : t.a_blip = none) :
    endElement rels ⟨v ++ [t], p⟩ mm nary =
      some ⟨.ClosedTag, (singleTagClose t mm nary).1,
        (singleTagClose t mm nary).2.1, (singleTagClose t mm nary).2.2⟩ := by
  unfold endElement endElementCore
  rw [drawing_eqR, hyperlink_eqR, word_text_eqR, math_text_eqR]
  have hr : (v ++ [t]).reverse = t :: v.reverse := by simp
  rw [hr, drawingR_cons_nb _ hb, hyperlinkR_cons_nc _ hc, wordTextR_cons_nc _ hc,
    mathTextR_cons_nc _ hc]
  simp only [Boo.last]
  rw [List.getLast?_concat]
  rfl

lemma endElement_hyperlink (rels : Rels) (v : List Tag) (p : Nat) (l : Link)
    (c : String) (mm : Bool) (nary : Option Bool) :
    endElement rels ⟨v ++ [.WHyperlink l, .WRun, .WText, .Content c], p⟩ mm nary =
      some ⟨.ClosedTag, (latex.hyperlink rels (l, c)).2, mm, nary⟩ := by
  unfold endElement endElementCore
  rw [drawing_eqR, hyperlink_eqR]
  have hr : (v ++ [Tag.WHyperlink l, Tag.WRun, Tag.WText, Tag.Content c]).reverse =
      Tag.Content c :: Tag.WText :: Tag.WRun :: Tag.WHyperlink l :: v.reverse := by
    simp
  rw [hr, drawingR_cons_nb (t := Tag.Content c) _ rfl, hyperlinkR_chain]
  rfl

lemma endElement_drawing (rels : Rels) (v : List Tag) (p : Nat) (rel : String)
    (w : Tag) (mm : Bool) (nary : Option Bool) (hw : w = .WPInline ∨ w = .WPAnchor) :
    endElement rels ⟨v ++ [.WDrawing, w, .AGraphic, .AGraphicData, .PicPic, .PicBlipFill, .ABlip rel], p⟩ mm nary =
      (latex.drawing rels rel).map (fun r => ⟨.ClosedTag, r.2, mm, nary⟩) := by
  unfold endElement endElementCore
  rw [drawing_complete _ _ _ _ hw]
  simp only [Option.map_map]
  rfl


/-! ## Peek sequences -/

lemma Boo.peekN_fst {α : Type} (k : Nat) (b : Boo α) :
    (b.peekN k).1 = (List.range' b.peeked k).map (fun i => b.vec.reverse[i]?) := by
  induction k generalizing b with
  | zero => simp [Boo.peekN]
  | succ k ih =>
    show (b.peek.1 :: ((b.peek.2).peekN k).1, ((b.peek.2).peekN k).2).1 = _
    rw [Boo.peek_eq, List.range'_succ]
    simp [ih]

lemma Boo.peekN_snd {α : Type} (k : Nat) (b : Boo α) :
    (b.peekN k).2 = ⟨b.vec, b.peeked + k⟩ := by
  induction k generalizing b with
  | zero => simp [Boo.peekN]
  | succ k ih =>
    show (b.peek.1 :: ((b.peek.2).peekN k).1, ((b.peek.2).peekN k).2).2 = _
    rw [Boo.peek_eq]
    simp only [ih]
    congr 1
    omega

lemma Boo.peekN_exhausted {α : Type} (k : Nat) (b : Boo α)
    (h : b.vec.length ≤ b.peeked) :
    (b.peekN k).1 = List.replicate k none := by
  induction k generalizing b with
  | zero => simp [Boo.peekN]
  | succ k ih =>
    show (b.peek.1 :: ((b.peek.2).peekN k).1, ((b.peek.2).peekN k).2).1 = _
    rw [Boo.peek_eq]
    have h1 : b.vec.reverse[b.peeked]? = none := by
      apply List.getElem?_eq_none
      simpa using h
    have h2 : ((⟨b.vec, b.peeked + 1⟩ : Boo α).peekN k).1 = List.replicate k none := by
      apply ih
      simpa using Nat.le_succ_of_le h
    simp [h1, h2, List.replicate_succ]


/-! ## Driver step lemmas -/

lemma startElement_ok {n : QName} {a : List Attr} {t : Tag} {mm : Bool}
    {nary : Option Bool} (h : Tag.tryFrom n a = .ok t) :
    startElement n a mm nary = ⟨.OpenedTag t, (startEmit t mm nary).1,
      (startEmit t mm nary).2.1, (startEmit t mm nary).2.2⟩ := by
  unfold startElement
  rw [h]

lemma startElement_err {n : QName} {a : List Attr} {e : InputError} {mm : Bool}
    {nary : Option Bool} (h : Tag.tryFrom n a = .error e) :
    startElement n a mm nary = ⟨.AttributesMissing, "", mm, nary⟩ := by
  unfold startElement
  rw [h]

lemma docStep_start_ok (rels : Rels) (st : DocState) {n : QName} {a : List Attr}
    {t : Tag} (h : Tag.tryFrom n a = .ok t) :
    docStep rels st (.startElement n a) =
      .cont ⟨st.stack.push t, (startEmit t st.mathMode st.naryHasChr).2.1,
        (startEmit t st.mathMode st.naryHasChr).2.2,
        st.out ++ (startEmit t st.mathMode st.naryHasChr).1⟩ := by
  simp only [docStep, xmlEvent, startElement_ok h]

lemma docStep_start_err (rels : Rels) (st : DocState) {n : QName} {a : List Attr}
    {e : InputError} (h : Tag.tryFrom n a = .error e) :
    docStep rels st (.startElement n a) = .cont st := by
  simp only [docStep, xmlEvent, startElement_err h]
  simp [String.append_empty]

lemma docStep_end (rels : Rels) (st : DocState) {o : String × Bool × Option Bool}
    (h : endElementCore rels st.stack st.mathMode st.naryHasChr = some o) :
    docStep rels st .endElement =
      .cont ⟨(st.stack.pop).2, o.2.1, o.2.2, st.out ++ o.1⟩ := by
  have he : endElement rels st.stack st.mathMode st.naryHasChr =
      some ⟨.ClosedTag, o.1, o.2.1, o.2.2⟩ := by
    unfold endElement
    rw [h]
    rfl
  simp only [docStep, xmlEvent, he]

lemma docStep_end_panic (rels : Rels) (st : DocState)
    (h : endElementCore rels st.stack st.mathMode st.naryHasChr = none) :
    docStep rels st .endElement = .panic := by
  have he : endElement rels st.stack st.mathMode st.naryHasChr = none := by
    unfold endElement
    rw [h]
    rfl
  simp only [docStep, xmlEvent, he]

lemma docStep_chars (rels : Rels) (st : DocState) (s : String)
    {o : String × Bool × Option Bool}
    (h : endElementCore rels (st.stack.push (.Content (escape s st.mathMode)))
      st.mathMode st.naryHasChr = some o) :
    docStep rels st (.characters s) =
      .cont ⟨st.stack, o.2.1, o.2.2, st.out ++ o.1⟩ := by
  have he : endElement rels (st.stack.push (.Content (escape s st.mathMode)))
      st.mathMode st.naryHasChr = some ⟨.ClosedTag, o.1, o.2.1, o.2.2⟩ := by
    unfold endElement
    rw [h]
    rfl
  simp only [docStep, xmlEvent, he]
  have hpop : ((st.stack.push (.Content (escape s st.mathMode))).pop).2 = st.stack := by
    unfold Boo.push Boo.pop
    simp [List.dropLast_concat]
  rw [hpop]
  simp [String.append_empty]

lemma docStep_chars_panic (rels : Rels) (st : DocState) (s : String)
    (h : endElementCore rels (st.stack.push (.Content (escape s st.mathMode)))
      st.mathMode st.naryHasChr = none) :
    docStep rels st (.characters s) = .panic := by
  have he : endElement rels (st.stack.push (.Content (escape s st.mathMode)))
      st.mathMode st.naryHasChr = none := by
    unfold endElement
    rw [h]
    rfl
  simp only [docStep, xmlEvent, he]

lemma docStep_ws (rels : Rels) (st : DocState) (s : String)
    {o : String × Bool × Option Bool}
    (h : endElementCore rels (st.stack.push (.Content s))
      st.mathMode st.naryHasChr = some o) :
    docStep rels st (.whitespace s) =
      .cont ⟨st.stack, o.2.1, o.2.2, st.out ++ o.1⟩ := by
  have he : endElement rels (st.stack.push (.Content s))
      st.mathMode st.naryHasChr = some ⟨.ClosedTag, o.1, o.2.1, o.2.2⟩ := by
    unfold endElement
    rw [h]
    rfl
  simp only [docStep, xmlEvent, he]
  have hpop : ((st.stack.push (.Content s)).pop).2 = st.stack := by
    unfold Boo.push Boo.pop
    simp [List.dropLast_concat]
  rw [hpop]
  simp [String.append_empty]

lemma docStep_ws_panic (rels : Rels) (st : DocState) (s : String)
    (h : endElementCore rels (st.stack.push (.Content s))
      st.mathMode st.naryHasChr = none) :
    docStep rels st (.whitespace s) = .panic := by
  have he : endElement rels (st.stack.push (.Content s))
      st.mathMode st.naryHasChr = none := by
    unfold endElement
    rw [h]
    rfl
  simp only [docStep, xmlEvent, he]

lemma docStep_startDoc (rels : Rels) (st : DocState) :
    docStep rels st .startDocument = .cont st := by
  simp only [docStep, xmlEvent]
  simp [String.append_empty]

lemma docStep_other (rels : Rels) (st : DocState) :
    docStep rels st .other = .cont st := by
  simp only [docStep, xmlEvent]
  simp [String.append_empty]

lemma docStep_endDoc (rels : Rels) (st : DocState) :
    docStep rels st .endDocument = .stop st := by
  simp only [docStep, xmlEvent]
  simp [String.append_empty]

lemma docStep_readError (rels : Rels) (st : DocState) :
    docStep rels st .readError = .stop st := rfl

lemma documentRun_cons_cont {rels : Rels} {e : Event} {rest : List Event}
    {st st'' : DocState} (h : docStep rels st e = .cont st'') :
    documentRun rels (e :: rest) st = documentRun rels rest st'' := by
  simp only [documentRun, h]

lemma documentRun_cons_stop {rels : Rels} {e : Event} {rest : List Event}
    {st st'' : DocState} (h : docStep rels st e = .stop st'') :
    documentRun rels (e :: rest) st = some st'' := by
  simp only [documentRun, h]

lemma documentRun_cons_panic {rels : Rels} {e : Event} {rest : List Event}
    {st : DocState} (h : docStep rels st e = .panic) :
    documentRun rels (e :: rest) st = none := by
  simp only [documentRun, h]


/-! ## The stack tracks the ancestor path (for well-classified streams) -/

lemma documentRun_path (rels : Rels) (events : List Event) :
    ∀ (st st' : DocState),
      (∀ n a, Event.startElement n a ∈ events → ∃ t, Tag.tryFrom n a = .ok t) →
      (∀ e ∈ events, e ≠ Event.endDocument ∧ e ≠ Event.readError) →
      documentRun rels events st = some st' →
      st'.stack.vec = specAncestorPathFrom st.stack.vec events := by
  induction events with
  | nil =>
    intro st st' _ _ h
    have : st = st' := by
      simpa [documentRun] using h
    subst this
    rfl
  | cons e rest ih =>
    intro st st' hok hno hrun
    have hok' : ∀ n a, Event.startElement n a ∈ rest → ∃ t, Tag.tryFrom n a = .ok t :=
      fun n a hm => hok n a (List.mem_cons_of_mem _ hm)
    have hno' : ∀ e ∈ rest, e ≠ Event.endDocument ∧ e ≠ Event.readError :=
      fun e he => hno e (List.mem_cons_of_mem _ he)
    cases e with
    | startElement n a =>
      obtain ⟨t, ht⟩ := hok n a (List.mem_cons_self _ _)
      rw [documentRun_cons_cont (docStep_start_ok rels st ht)] at hrun
      have hres := ih _ _ hok' hno' hrun
      rw [hres]
      simp only [specAncestorPathFrom, ht, Boo.push]
    | endElement =>
      rcases hcore : endElementCore rels st.stack st.mathMode st.naryHasChr with _ | o
      · rw [documentRun_cons_panic (docStep_end_panic rels st hcore)] at hrun
        exact absurd hrun (by simp)
      · rw [documentRun_cons_cont (docStep_end rels st hcore)] at hrun
        have hres := ih _ _ hok' hno' hrun
        rw [hres]
        simp only [specAncestorPathFrom, Boo.pop]
    | characters s =>
      rcases hcore : endElementCore rels
          (st.stack.push (.Content (escape s st.mathMode)))
          st.mathMode st.naryHasChr with _ | o
      · rw [documentRun_cons_panic (docStep_chars_panic rels st s hcore)] at hrun
        exact absurd hrun (by simp)
      · rw [documentRun_cons_cont (docStep_chars rels st s hcore)] at hrun
        have hres := ih _ _ hok' hno' hrun
        rw [hres]
        simp only [specAncestorPathFrom]
    | whitespace s =>
      rcases hcore : endElementCore rels (st.stack.push (.Content s))
          st.mathMode st.naryHasChr with _ | o
      · rw [documentRun_cons_panic (docStep_ws_panic rels st s hcore)] at hrun
        exact absurd hrun (by simp)
      · rw [documentRun_cons_cont (docStep_ws rels st s hcore)] at hrun
        have hres := ih _ _ hok' hno' hrun
        rw [hres]
        simp only [specAncestorPathFrom]
    | startDocument =>
      rw [documentRun_cons_cont (docStep_startDoc rels st)] at hrun
      have hres := ih _ _ hok' hno' hrun
      rw [hres]
      simp only [specAncestorPathFrom]
    | other =>
      rw [documentRun_cons_cont (docStep_other rels st)] at hrun
      have hres := ih _ _ hok' hno' hrun
      rw [hres]
      simp only [specAncestorPathFrom]
    | endDocument =>
      exact absurd rfl (hno _ (List.mem_cons_self _ _)).1
    | readError =>
      exact absurd rfl (hno _ (List.mem_cons_self _ _)).2


/-! ## Boo-level soundness of the matchers, escaping, misc helpers -/

lemma hyperlink_sound {v : List Tag} {p : Nat} {l : Link} {c : String}
    (h : ooxml.hyperlink ⟨v, p⟩ = some (l, c)) :
    ∃ rest, v = rest ++ [.WHyperlink l, .WRun, .WText, .Content c] := by
  rw [hyperlink_eqR] at h
  obtain ⟨tail, htail⟩ := hyperlinkR_sound h
  refine ⟨tail.reverse, ?_⟩
  have hv : v.reverse.reverse =
      (Tag.Content c :: Tag.WText :: Tag.WRun :: Tag.WHyperlink l :: tail).reverse := by
    rw [htail]
  simpa using hv

lemma word_text_sound {v : List Tag} {p : Nat} {c : String}
    (h : ooxml.word_text ⟨v, p⟩ = some c) :
    ∃ rest, v = rest ++ [.WRun, .WText, .Content c] := by
  rw [word_text_eqR] at h
  obtain ⟨tail, htail⟩ := wordTextR_sound h
  refine ⟨tail.reverse, ?_⟩
  have hv : v.reverse.reverse =
      (Tag.Content c :: Tag.WText :: Tag.WRun :: tail).reverse := by rw [htail]
  simpa using hv

lemma math_text_sound {v : List Tag} {p : Nat} {c : String}
    (h : ooxml.math_text ⟨v, p⟩ = some c) :
    ∃ rest, v = rest ++ [.MRun, .MText, .Content c] := by
  rw [math_text_eqR] at h
  obtain ⟨tail, htail⟩ := mathTextR_sound h
  refine ⟨tail.reverse, ?_⟩
  have hv : v.reverse.reverse =
      (Tag.Content c :: Tag.MText :: Tag.MRun :: tail).reverse := by rw [htail]
  simpa using hv

lemma drawing_sound {v : List Tag} {p : Nat} {rel : String}
    (h : ooxml.drawing ⟨v, p⟩ = some rel) :
    ∃ w rest, (w = Tag.WPInline ∨ w = Tag.WPAnchor) ∧
      v = rest ++ [.WDrawing, w, .AGraphic, .AGraphicData, .PicPic, .PicBlipFill, .ABlip rel] := by
  rw [drawing_eqR] at h
  obtain ⟨w, tail, hw, htail⟩ := drawingR_sound h
  refine ⟨w, tail.reverse, hw, ?_⟩
  have hv : v.reverse.reverse =
      (Tag.ABlip rel :: Tag.PicBlipFill :: Tag.PicPic :: Tag.AGraphicData ::
        Tag.AGraphic :: w :: Tag.WDrawing :: tail).reverse := by rw [htail]
  simpa using hv

lemma endElementCore_nil (rels : Rels) (p : Nat) (mm : Bool) (nary : Option Bool) :
    endElementCore rels ⟨[], p⟩ mm nary = some ("", mm, nary) := by
  unfold endElementCore
  rw [drawing_eqR, hyperlink_eqR, word_text_eqR, math_text_eqR]
  rfl

lemma endElement_nary (rels : Rels) (v : List Tag) (p : Nat) (mm : Bool)
    (nary : Option Bool) :
    endElement rels ⟨v ++ [.MNaryPr], p⟩ mm nary =
      some ⟨.ClosedTag, (if nary = some false then "\\int" else ""), mm, none⟩ := by
  have := endElement_concat rels v .MNaryPr p mm nary rfl rfl
  simpa [singleTagClose] using this

lemma escape_foldl_acc (l : List Char) (mm : Bool) (acc : String) :
    l.foldl (fun buf c => buf ++ escapeChar c mm) acc =
      acc ++ l.foldl (fun buf c => buf ++ escapeChar c mm) "" := by
  induction l generalizing acc with
  | nil => simp
  | cons c cs ih =>
    show cs.foldl _ (acc ++ escapeChar c mm) = acc ++ cs.foldl _ ("" ++ escapeChar c mm)
    rw [ih (acc ++ escapeChar c mm), ih ("" ++ escapeChar c mm)]
    simp [String.append_assoc]

lemma escape_append (s t : String) (mm : Bool) :
    escape (s ++ t) mm = escape s mm ++ escape t mm := by
  unfold escape
  rw [String.data_append, List.foldl_append, escape_foldl_acc]

lemma escape_singleton (c : Char) (mm : Bool) :
    escape (String.singleton c) mm = escapeChar c mm := by
  unfold escape
  rw [String.singleton_eq]
  show ("" ++ escapeChar c mm) = escapeChar c mm
  exact String.empty_append _

/-- The empty relationship map and the one-entry map used as concrete
inputs in the witnesses below. -/
def relsEmpty : Rels := fun _ => none

def relsKV : Rels := fun k => if k == "Key" then some ("value.test") else none


/-! ## Claim theorems -/

/-- Claim C3: each of the four structural matchers returns no match on a
stack shorter than its required depth; a successful match forces the top
frames to be exactly the expected chain, with the payload equal to the
values stored in those frames (so a single wrong frame can never match);
and the exact, correctly-typed chain always matches with that payload. -/
theorem matchers_characterization_c3 :
    (∀ (v : List Tag) (p : Nat), v.length < 7 → ooxml.drawing ⟨v, p⟩ = none) ∧
    (∀ (v : List Tag) (p : Nat), v.length < 4 → ooxml.hyperlink ⟨v, p⟩ = none) ∧
    (∀ (v : List Tag) (p : Nat), v.length < 3 → ooxml.word_text ⟨v, p⟩ = none) ∧
    (∀ (v : List Tag) (p : Nat), v.length < 3 → ooxml.math_text ⟨v, p⟩ = none) ∧
    (∀ (v : List Tag) (p : Nat) (rel : String), ooxml.drawing ⟨v, p⟩ = some rel →
      ∃ w rest, (w = Tag.WPInline ∨ w = Tag.WPAnchor) ∧
        v = rest ++ [.WDrawing, w, .AGraphic, .AGraphicData, .PicPic, .PicBlipFill, .ABlip rel]) ∧
    (∀ (v : List Tag) (p : Nat) (l : Link) (c : String),
      ooxml.hyperlink ⟨v, p⟩ = some (l, c) →
      ∃ rest, v = rest ++ [.WHyperlink l, .WRun, .WText, .Content c]) ∧
    (∀ (v : List Tag) (p : Nat) (c : String), ooxml.word_text ⟨v, p⟩ = some c →
      ∃ rest, v = rest ++ [.WRun, .WText, .Content c]) ∧
    (∀ (v : List Tag) (p : Nat) (c : String), ooxml.math_text ⟨v, p⟩ = some c →
      ∃ rest, v = rest ++ [.MRun, .MText, .Content c]) ∧
    (∀ (rest : List Tag) (p : Nat) (rel : String) (w : Tag),
      (w = Tag.WPInline ∨ w = Tag.WPAnchor) →
      ooxml.drawing ⟨rest ++ [.WDrawing, w, .AGraphic, .AGraphicData, .PicPic, .PicBlipFill, .ABlip rel], p⟩ = some rel) ∧
    (∀ (rest : List Tag) (p : Nat) (l : Link) (c : String),
      ooxml.hyperlink ⟨rest ++ [.WHyperlink l, .WRun, .WText, .Content c], p⟩ = some (l, c)) ∧
    (∀ (rest : List Tag) (p : Nat) (c : String),
      ooxml.word_text ⟨rest ++ [.WRun, .WText, .Content c], p⟩ = some c) ∧
    (∀ (rest : List Tag) (p : Nat) (c : String),
      ooxml.math_text ⟨rest ++ [.MRun, .MText, .Content c], p⟩ = some c) := by
  refine ⟨drawing_short, hyperlink_short, word_text_short, math_text_short,
    ?_, ?_, ?_, ?_, ?_, ?_, ?_, ?_⟩
  · intro v p rel h
    exact drawing_sound h
  · intro v p l c h
    exact hyperlink_sound h
  · intro v p c h
    exact word_text_sound h
  · intro v p c h
    exact math_text_sound h
  · intro rest p rel w hw
    exact drawing_complete rest p rel w hw
  · intro rest p l c
    exact hyperlink_complete rest p l c
  · intro rest p c
    exact word_text_complete rest p c
  · intro rest p c
    exact math_text_complete rest p c

/-- Witness for C3 at concrete stacks: the empty stack matches nothing,
a short stack matches no drawing, the exact hyperlink chain matches with
the pushed payload, and a successful drawing match recovers the chain. -/
theorem matchers_characterization_c3_witness :
    ooxml.hyperlink ⟨[], 0⟩ = none ∧
    ooxml.drawing ⟨[Tag.WRun], 2⟩ = none ∧
    ooxml.hyperlink ⟨[] ++ [.WHyperlink (.Anchor ("A")), .WRun, .WText, .Content ("C")], 0⟩ =
      some (.Anchor ("A"), "C") ∧
    (∃ w rest, (w = Tag.WPInline ∨ w = Tag.WPAnchor) ∧
      [Tag.WDrawing, Tag.WPAnchor, Tag.AGraphic, Tag.AGraphicData, Tag.PicPic,
        Tag.PicBlipFill, Tag.ABlip ("R")] =
        rest ++ [.WDrawing, w, .AGraphic, .AGraphicData, .PicPic, .PicBlipFill, .ABlip ("R")]) :=
  ⟨matchers_characterization_c3.2.1 [] 0 (by decide),
   matchers_characterization_c3.1 [Tag.WRun] 2 (by decide),
   matchers_characterization_c3.2.2.2.2.2.2.2.2.2.1 [] 0 (.Anchor ("A")) ("C"),
   matchers_characterization_c3.2.2.2.2.1 _ 0 ("R") (by decide)⟩

/-- Claim C9: after a reset, `k` peeks return the elements at depths
`0, 1, …, k-1` below the top (nothing where the depth runs past the
length); once the cursor is at or past the stack length every further
peek returns nothing, without panicking or wrapping; and after another
reset an unmodified stack reproduces exactly the same peek sequence. -/
theorem peek_sequences_c9 (α : Type) (b : Boo α) (k j : Nat)
    (h : b.vec.length ≤ b.peeked) :
    ((b.reset).peekN k).1 = (List.range k).map (fun i => b.vec.reverse[i]?) ∧
    (b.peekN j).1 = List.replicate j none ∧
    ((((b.reset).peekN k).2).reset.peekN j).1 = ((b.reset).peekN j).1 := by
  refine ⟨?_, Boo.peekN_exhausted j b h, ?_⟩
  · rw [List.range_eq_range']
    have := Boo.peekN_fst k b.reset
    simpa [Boo.reset] using this
  · rw [Boo.peekN_snd]
    rfl

/-- Witness for C9 on a concrete three-element stack whose cursor is
already past the end. -/
theorem peek_sequences_c9_witness :
    (((⟨[0, 1, 2], 5⟩ : Boo Nat).reset).peekN 5).1 =
      (List.range 5).map (fun i => (⟨[0, 1, 2], 5⟩ : Boo Nat).vec.reverse[i]?) ∧
    ((⟨[0, 1, 2], 5⟩ : Boo Nat).peekN 2).1 = List.replicate 2 none ∧
    (((((⟨[0, 1, 2], 5⟩ : Boo Nat).reset).peekN 5).2).reset.peekN 2).1 =
      (((⟨[0, 1, 2], 5⟩ : Boo Nat).reset).peekN 2).1 :=
  peek_sequences_c9 Nat ⟨[0, 1, 2], 5⟩ 5 2 (by decide)

/-- Claim C4: escaping is a pure per-character function of the character
and the math-mode flag — it maps string concatenation to concatenation
and single characters through the per-character table; the table sends
the twelve special characters to their LaTeX macros (with a trailing
space), `<` and `>` pass through in math mode and become `\textless ` /
`\textgreater ` otherwise, and every other character is unchanged. -/
theorem escape_per_char_c4 :
    (∀ (s t : String) (mm : Bool), escape (s ++ t) mm = escape s mm ++ escape t mm) ∧
    (∀ (c : Char) (mm : Bool), escape (String.singleton c) mm = escapeChar c mm) ∧
    (∀ mm : Bool,
      escapeChar '∞' mm = "\\infty " ∧ escapeChar 'π' mm = "\\pi " ∧
      escapeChar '&' mm = "\\& " ∧ escapeChar '%' mm = "\\% " ∧
      escapeChar '$' mm = "\\$ " ∧ escapeChar '\x7b' mm = "\\\x7b " ∧
      escapeChar '#' mm = "\\# " ∧ escapeChar '\x7d' mm = "\\\x7d " ∧
      escapeChar '~' mm = "\\~\x7b\x7d " ∧ escapeChar '_' mm = "\\_ " ∧
      escapeChar '±' mm = "\\pm " ∧ escapeChar '∓' mm = "\\mp ") ∧
    escapeChar '<' true = "<" ∧ escapeChar '<' false = "\\textless " ∧
    escapeChar '>' true = ">" ∧ escapeChar '>' false = "\\textgreater " ∧
    (∀ (c : Char) (mm : Bool),
      c ∉ (['∞', 'π', '&', '<', '>', '%', '$', '\x7b', '#', '\x7d', '~', '_', '±', '∓'] : List Char) →
      escapeChar c mm = String.singleton c) := by
  refine ⟨escape_append, escape_singleton,
    fun mm => ⟨rfl, rfl, rfl, rfl, rfl, rfl, rfl, rfl, rfl, rfl, rfl, rfl⟩,
    rfl, rfl, rfl, rfl, ?_⟩
  intro c mm h
  simp only [List.mem_cons, List.not_mem_nil, or_false, not_or] at h
  obtain ⟨h1, h2, h3, h4, h5, h6, h7, h8, h9, h10, h11, h12, h13, h14⟩ := h
  simp [escapeChar, h1, h2, h3, h4, h5, h6, h7, h8, h9, h10, h11, h12, h13, h14]

/-- Witness for C4 at a concrete ordinary character. -/
theorem escape_per_char_c4_witness :
    escapeChar 'a' false = String.singleton 'a' :=
  escape_per_char_c4.2.2.2.2.2.2.2 'a' false (by decide)

/-- Claim C8: opening `m:naryPr` initializes the n-ary tracker to
"no operator yet"; an `m:chr` start advances it to "operator seen" and
keeps it there; closing `m:naryPr` emits `\int` exactly when the tracker
still says "no operator yet", emits nothing otherwise, and always resets
the tracker to "not in n-ary". -/
theorem nary_tracking_c8 (atts : List Attr) (mm : Bool) (val : String)
    (rels : Rels) (v : List Tag) (p : Nat) (nary : Option Bool) :
    startElement ⟨some ("m"), "naryPr"⟩ atts mm none =
      ⟨.OpenedTag .MNaryPr, "", mm, some false⟩ ∧
    startElement ⟨some ("m"), "chr"⟩ [⟨⟨some ("m"), "val"⟩, val⟩] mm (some false) =
      ⟨.OpenedTag (.MChr val), "\\" ++ mchrSymbol val, mm, some true⟩ ∧
    startElement ⟨some ("m"), "chr"⟩ [⟨⟨some ("m"), "val"⟩, val⟩] mm (some true) =
      ⟨.OpenedTag (.MChr val), "\\" ++ mchrSymbol val, mm, some true⟩ ∧
    endElement rels ⟨v ++ [.MNaryPr], p⟩ mm nary =
      some ⟨.ClosedTag, (if nary = some false then "\\int" else ""), mm, none⟩ :=
  ⟨rfl, rfl, rfl, endElement_nary rels v p mm nary⟩


/-- Claim C1: on an end-tag (or synthetic content) event the emitter
tries drawing, hyperlink, word-text, math-text in that order and the
first success suppresses the rest and the single-tag fallback: whenever
the drawing matcher succeeds the emission is the drawing rule's, and on
every stack topped by content / word text-node / word run / hyperlink
the word-text matcher also matches, yet the emission is the hyperlink
rule's. -/
theorem matcher_precedence_c1 (rels : Rels) (rest : List Tag) (p : Nat) (l : Link)
    (c : String) (mm : Bool) (nary : Option Bool) :
    ooxml.word_text ⟨rest ++ [.WHyperlink l, .WRun, .WText, .Content c], p⟩ = some c ∧
    ooxml.hyperlink ⟨rest ++ [.WHyperlink l, .WRun, .WText, .Content c], p⟩ = some (l, c) ∧
    endElement rels ⟨rest ++ [.WHyperlink l, .WRun, .WText, .Content c], p⟩ mm nary =
      some ⟨.ClosedTag, (latex.hyperlink rels (l, c)).2, mm, nary⟩ ∧
    (∀ (b : Boo Tag) (rel : String), ooxml.drawing b = some rel →
      endElement rels b mm nary =
        (latex.drawing rels rel).map (fun r => ⟨.ClosedTag, r.2, mm, nary⟩)) := by
  refine ⟨?_, hyperlink_complete rest p l c, endElement_hyperlink rels rest p l c mm nary, ?_⟩
  · have := word_text_complete (rest ++ [.WHyperlink l]) p c
    simpa [List.append_assoc] using this
  · intro b rel h
    unfold endElement endElementCore
    rw [h]
    simp only [Option.map_map]
    rfl

/-- Witness for C1: a concrete drawing stack takes the drawing rule, and
the word-text matcher matches the concrete hyperlink stack. -/
theorem matcher_precedence_c1_witness :
    endElement relsEmpty ⟨[Tag.WDrawing, Tag.WPInline, Tag.AGraphic, Tag.AGraphicData,
        Tag.PicPic, Tag.PicBlipFill, Tag.ABlip ("R")], 0⟩ false none =
      (latex.drawing relsEmpty ("R")).map (fun r => ⟨.ClosedTag, r.2, false, none⟩) ∧
    ooxml.word_text ⟨[] ++ [.WHyperlink (.Anchor ("A")), .WRun, .WText, .Content ("C")], 0⟩ =
      some ("C") :=
  ⟨(matcher_precedence_c1 relsEmpty [] 0 (.Anchor ("A")) ("C") false none).2.2.2
      ⟨[Tag.WDrawing, Tag.WPInline, Tag.AGraphic, Tag.AGraphicData, Tag.PicPic,
        Tag.PicBlipFill, Tag.ABlip ("R")], 0⟩ ("R") (by decide),
   (matcher_precedence_c1 relsEmpty [] 0 (.Anchor ("A")) ("C") false none).1⟩

/-- Counterexample to C2 as stated: before a skipped `a:blip` (missing
its attribute) the stack holds the open paragraph, but after the
element — its closing event included — the stack is empty, not restored:
the closing event of the skipped element popped the parent frame. -/
theorem stack_invariant_c2_cex :
    (documentRun relsEmpty [Event.startElement ⟨some ("w"), "p"⟩ []] initState).map
      (fun st => st.stack.vec) = some [Tag.WParagraph] ∧
    (documentRun relsEmpty
      [Event.startElement ⟨some ("w"), "p"⟩ [],
       Event.startElement ⟨some ("a"), "blip"⟩ [],
       Event.endElement] initState).map (fun st => st.stack.vec) = some [] ∧
    ([] : List Tag) ≠ [Tag.WParagraph] := by decide

/-- Claim C2 as amended: the stack equals the ancestor path after every
event provided every start tag classifies successfully; a tag failing
classification is not pushed — its start event leaves the whole driver
state unchanged and conversion continues — but the closing event of a
skipped element still pops the current top frame. -/
theorem stack_invariant_c2_amended (rels : Rels) (events : List Event)
    (st' : DocState) (n : QName) (a : List Attr) (e : InputError)
    (rest : List Event) (st : DocState) (o : String × Bool × Option Bool)
    (hok : ∀ n a, Event.startElement n a ∈ events → ∃ t, Tag.tryFrom n a = .ok t)
    (hno : ∀ ev ∈ events, ev ≠ Event.endDocument ∧ ev ≠ Event.readError)
    (hrun : documentRun rels events initState = some st')
    (herr : Tag.tryFrom n a = .error e)
    (hcore : endElementCore rels st.stack st.mathMode st.naryHasChr = some o) :
    st'.stack.vec = specAncestorPathFrom [] events ∧
    docStep rels st (.startElement n a) = .cont st ∧
    documentRun rels (Event.startElement n a :: rest) st = documentRun rels rest st ∧
    documentRun rels (Event.endElement :: rest) st =
      documentRun rels rest ⟨(st.stack.pop).2, o.2.1, o.2.2, st.out ++ o.1⟩ :=
  ⟨documentRun_path rels events initState st' hok hno hrun,
   docStep_start_err rels st herr,
   documentRun_cons_cont (docStep_start_err rels st herr),
   documentRun_cons_cont (docStep_end rels st hcore)⟩

/-- Witness for the amended C2: one successfully classified paragraph,
then a skipped `a:blip` start and a closing event on the resulting
state. -/
theorem stack_invariant_c2_amended_witness :
    (⟨⟨[Tag.WParagraph], 0⟩, false, none, ""⟩ : DocState).stack.vec =
      specAncestorPathFrom [] [Event.startElement ⟨some ("w"), "p"⟩ []] ∧
    docStep relsEmpty ⟨⟨[Tag.WParagraph], 0⟩, false, none, ""⟩
      (.startElement ⟨some ("a"), "blip"⟩ []) =
      .cont ⟨⟨[Tag.WParagraph], 0⟩, false, none, ""⟩ ∧
    documentRun relsEmpty [Event.startElement ⟨some ("a"), "blip"⟩ []]
      ⟨⟨[Tag.WParagraph], 0⟩, false, none, ""⟩ =
      documentRun relsEmpty [] ⟨⟨[Tag.WParagraph], 0⟩, false, none, ""⟩ ∧
    documentRun relsEmpty [Event.endElement] ⟨⟨[Tag.WParagraph], 0⟩, false, none, ""⟩ =
      documentRun relsEmpty []
        ⟨((⟨[Tag.WParagraph], 0⟩ : Boo Tag).pop).2, false, none, "" ++ "\n\n"⟩ :=
  stack_invariant_c2_amended relsEmpty [Event.startElement ⟨some ("w"), "p"⟩ []]
    ⟨⟨[Tag.WParagraph], 0⟩, false, none, ""⟩ ⟨some ("a"), "blip"⟩ []
    (.MissingAttributes ("a:blip") [("r:embed")]) []
    ⟨⟨[Tag.WParagraph], 0⟩, false, none, ""⟩ ("\n\n", false, none)
    (by
      intro n' a' hm
      rw [List.mem_singleton] at hm
      injection hm with h1 h2
      subst h1
      subst h2
      exact ⟨Tag.WParagraph, rfl⟩)
    (by
      intro ev hm
      rw [List.mem_singleton] at hm
      subst hm
      exact ⟨by decide, by decide⟩)
    (by decide) rfl (by decide)

/-- Counterexample to C5 as stated: a drawing whose relationship
resolves to `value.test` emits the file stem in Rust `Debug` formatting,
`{"value"}` with literal quotes, not the bare `{value}` the claim
states (the repository's own test expects the quoted form). -/
theorem drawing_stem_c5_cex :
    latex.drawing relsKV ("Key") =
      some (.Happy, "\\includegraphics[width=\\textwidth]\x7b\"value\"\x7d") ∧
    latex.drawing relsKV ("Key") ≠
      some (.Happy, "\\includegraphics[width=\\textwidth]\x7bvalue\x7d") := by
  decide

/-- Claim C5 as amended: when the relationship resolves and the target
has a parseable stem, the emitted fragment is
`\includegraphics[width=\textwidth]{S}` where `S` is the Rust
`Debug`-formatted file stem — the stem wrapped in double quotes. -/
theorem drawing_stem_c5_amended (rels : Rels) (rel path stem : String)
    (h1 : rels rel = some path) (h2 : rustFileStem path = some stem) :
    latex.drawing rels rel =
      some (.Happy, "\\includegraphics[width=\\textwidth]\x7b" ++ rustDebug stem ++ "\x7d") := by
  unfold latex.drawing
  rw [h1]
  show (rustFileStem path).map _ = _
  rw [h2]
  rfl

/-- Witness for the amended C5 at the repository's own test input. -/
theorem drawing_stem_c5_witness :
    latex.drawing relsKV ("Key") =
      some (.Happy, "\\includegraphics[width=\\textwidth]\x7b" ++ rustDebug ("value") ++ "\x7d") :=
  drawing_stem_c5_amended relsKV ("Key") ("value.test") ("value") (by decide) (by decide)

/-- Counterexample to C6 as stated: an `m:chr` start tag with the value
attribute missing, inside an open n-ary-properties region, leaves the
tracker at "no operator yet" (it does not advance to "operator seen"),
and the subsequent close of the region does emit `\int`. -/
theorem nary_chr_c6_cex :
    startElement ⟨some ("m"), "chr"⟩ [] false (some false) =
      ⟨.AttributesMissing, "", false, some false⟩ ∧
    (startElement ⟨some ("m"), "chr"⟩ [] false (some false)).naryHasChr ≠ some true ∧
    endElement relsEmpty ⟨[.MNaryPr], 0⟩ false (some false) =
      some ⟨.ClosedTag, "\\int", false, none⟩ := by
  decide

/-- Claim C6 as amended: when an `m:chr` tag fails classification the
start-tag handler changes nothing — the n-ary tracker keeps its value —
so a region still waiting for an operator emits `\int` on close. -/
theorem nary_chr_c6_amended (atts : List Attr) (mm : Bool) (nary : Option Bool)
    (rels : Rels) (v : List Tag) (p : Nat)
    (h : atts.find? (fun a => normalize a.name == "m:val") = none) :
    startElement ⟨some ("m"), "chr"⟩ atts mm nary = ⟨.AttributesMissing, "", mm, nary⟩ ∧
    endElement rels ⟨v ++ [.MNaryPr], p⟩ mm (some false) =
      some ⟨.ClosedTag, "\\int", mm, none⟩ := by
  constructor
  · have h1 : Tag.tryFrom ⟨some ("m"), "chr"⟩ atts =
        (match atts.find? (fun a => normalize a.name == "m:val") with
         | some symbol => .ok (.MChr symbol.value)
         | none => .error (.MissingAttributes ("m:chr") [("m:val")])) := rfl
    unfold startElement
    rw [h1, h]
  · have := endElement_nary rels v p mm (some false)
    simpa using this

/-- Witness for the amended C6 with an empty attribute list. -/
theorem nary_chr_c6_witness :
    startElement ⟨some ("m"), "chr"⟩ [] false none =
      ⟨.AttributesMissing, "", false, none⟩ ∧
    endElement relsEmpty ⟨[] ++ [.MNaryPr], 0⟩ false (some false) =
      some ⟨.ClosedTag, "\\int", false, none⟩ :=
  nary_chr_c6_amended [] false none relsEmpty [] 0 (by decide)

/-- Claim C7: an unresolvable relationship id is recoverable — a
hyperlink on it emits exactly the bare content, a drawing on it emits
nothing, and in both cases `end_element` still reports a normal close so
conversion continues. -/
theorem missing_rel_c7 (rels : Rels) (r c : String) (mm : Bool) (nary : Option Bool)
    (v : List Tag) (p : Nat) (w : Tag) (hw : w = .WPInline ∨ w = .WPAnchor)
    (h : rels r = none) :
    latex.hyperlink rels (.Relationship r, c) = (.RelationshipMissing, c) ∧
    latex.drawing rels r = some (.RelationshipMissing, "") ∧
    endElement rels ⟨v ++ [.WHyperlink (.Relationship r), .WRun, .WText, .Content c], p⟩ mm nary =
      some ⟨.ClosedTag, c, mm, nary⟩ ∧
    endElement rels ⟨v ++ [.WDrawing, w, .AGraphic, .AGraphicData, .PicPic, .PicBlipFill, .ABlip r], p⟩ mm nary =
      some ⟨.ClosedTag, "", mm, nary⟩ := by
  have hh : latex.hyperlink rels (.Relationship r, c) = (.RelationshipMissing, c) := by
    show (match rels r with
      | some url => (State.Happy, "\\href\x7b" ++ url ++ "\x7d\x7b" ++ c ++ "\x7d")
      | none => (State.RelationshipMissing, c)) = (State.RelationshipMissing, c)
    rw [h]
  have hd : latex.drawing rels r = some (.RelationshipMissing, "") := by
    unfold latex.drawing
    rw [h]
  refine ⟨hh, hd, ?_, ?_⟩
  · rw [endElement_hyperlink rels v p (.Relationship r) c mm nary, hh]
  · rw [endElement_drawing rels v p r w mm nary hw, hd]
    rfl

/-- Witness for C7 on the empty relationship map. -/
theorem missing_rel_c7_witness :
    latex.hyperlink relsEmpty (.Relationship ("rId9"), "Click") =
      (.RelationshipMissing, "Click") ∧
    latex.drawing relsEmpty ("rId9") = some (.RelationshipMissing, "") ∧
    endElement relsEmpty ⟨[] ++ [.WHyperlink (.Relationship ("rId9")), .WRun, .WText, .Content ("Click")], 0⟩ false none =
      some ⟨.ClosedTag, "Click", false, none⟩ ∧
    endElement relsEmpty ⟨[] ++ [.WDrawing, Tag.WPInline, .AGraphic, .AGraphicData, .PicPic, .PicBlipFill, .ABlip ("rId9")], 0⟩ false none =
      some ⟨.ClosedTag, "", false, none⟩ :=
  missing_rel_c7 relsEmpty ("rId9") ("Click") false none [] 0 Tag.WPInline
    (Or.inl rfl) rfl

/-- Claim C10: an end-tag event on an empty context stack is safe and
silent — every structural matcher returns no match, the fallback finds
no tail element so nothing is written, the pop returns nothing instead
of panicking, and the driver continues with the next event unchanged. -/
theorem empty_stack_c10 (rels : Rels) (p : Nat) (mm : Bool) (nary : Option Bool)
    (rest : List Event) (st : DocState) (hst : st.stack.vec = []) :
    ooxml.drawing ⟨[], p⟩ = none ∧
    ooxml.hyperlink ⟨[], p⟩ = none ∧
    ooxml.word_text ⟨[], p⟩ = none ∧
    ooxml.math_text ⟨[], p⟩ = none ∧
    endElement rels ⟨[], p⟩ mm nary = some ⟨.ClosedTag, "", mm, nary⟩ ∧
    Boo.pop (⟨[], p⟩ : Boo Tag) = (none, ⟨[], p⟩) ∧
    documentRun rels (Event.endElement :: rest) st = documentRun rels rest st := by
  refine ⟨drawing_short [] p (by decide), hyperlink_short [] p (by decide),
    word_text_short [] p (by decide), math_text_short [] p (by decide),
    endElement_nil rels p mm nary, rfl, ?_⟩
  have hcore : endElementCore rels st.stack st.mathMode st.naryHasChr =
      some ("", st.mathMode, st.naryHasChr) := by
    rcases hs : st.stack with ⟨v, q⟩
    have hv : v = [] := by
      have h2 := hst
      rw [hs] at h2
      exact h2
    subst hv
    exact endElementCore_nil rels q st.mathMode st.naryHasChr
  rw [documentRun_cons_cont (docStep_end rels st hcore)]
  rcases st with ⟨⟨v, q⟩, mm', nary', out'⟩
  have hv : v = [] := hst
  subst hv
  simp [Boo.pop, String.append_empty]

/-- Witness for C10 on the initial driver state. -/
theorem empty_stack_c10_witness :
    ooxml.drawing ⟨[], 3⟩ = none ∧
    ooxml.hyperlink ⟨[], 3⟩ = none ∧
    ooxml.word_text ⟨[], 3⟩ = none ∧
    ooxml.math_text ⟨[], 3⟩ = none ∧
    endElement relsEmpty ⟨[], 3⟩ false none = some ⟨.ClosedTag, "", false, none⟩ ∧
    Boo.pop (⟨[], 3⟩ : Boo Tag) = (none, ⟨[], 3⟩) ∧
    documentRun relsEmpty (Event.endElement :: []) initState =
      documentRun relsEmpty [] initState :=
  empty_stack_c10 relsEmpty 3 false none [] initState rfl


end Docx2latex
